import Mathlib

/-!
Shallow embedding of the event-study statistics engine of
`stock-analysis-app.cpp`, with theorems checking the specification's
claims about it.  C++ `double` values are modelled as exact rationals
(`ℚ`); `std::vector<double>` as `List ℚ`; the C++ `int`/`size_t`
arguments that matter (the bootstrap `sampleSize`) as `ℤ` with the
implicit signed-to-unsigned conversion made explicit.
-/

set_option autoImplicit false

namespace EventStudy

/-- Width of `size_t` on the target platform (64-bit). -/
def SIZE_T_WIDTH : ℕ := 64

/-- Value of `std::numeric_limits<size_t>::max()`, used by
`performBootstrapping` as the starting value of the running minimum. -/
def SIZE_T_MAX : ℕ := 2 ^ SIZE_T_WIDTH - 1

/-- The implicit conversion of a C++ `int` to `size_t` that happens in
`stocks.size() <= sampleSize` and in `stocksCopy.begin() + sampleSize`:
reduction modulo `2^64`. -/
def size_t_of_int (n : ℤ) : ℕ := (n % (2 ^ SIZE_T_WIDTH : ℤ)).toNat

/-- The fields of `class Stock` the analysed claims depend on
(`symbol`, `epsEstimate`, `actualEPS`, `abnormalReturns`); the price
and plain-return series feed `abnormalReturns` upstream and are kept
as fields too for faithfulness of the record shape. -/
structure Stock where
  symbol : String
  epsEstimate : ℚ
  actualEPS : ℚ
  abnormalReturns : List ℚ
deriving DecidableEq, Repr

/-- `Stock::calculateAbnormalReturns`: clears and rebuilds
`abnormalReturns` as `returns[i] - marketReturns[i]` for
`i < returns.size() && i < marketReturns.size()`. -/
def calculateAbnormalReturns (returns marketReturns : List ℚ) : List ℚ :=
  List.zipWith (fun r m => r - m) returns marketReturns

/-- `Stock::getSurprisePercentage`: `(actualEPS - epsEstimate) / |epsEstimate| * 100`
when `epsEstimate != 0`, else `0.0`. -/
def getSurprisePercentage (epsEstimate actualEPS : ℚ) : ℚ :=
  if epsEstimate ≠ 0 then (actualEPS - epsEstimate) / |epsEstimate| * 100 else 0

/-- `Stock::getGroup`: `"Beat"` when the surprise exceeds `5.0`, `"Miss"`
when it is below `-5.0`, else `"Meet"`. -/
def getGroup (epsEstimate actualEPS : ℚ) : String :=
  let surprise := getSurprisePercentage epsEstimate actualEPS
  if surprise > 5 then "Beat"
  else if surprise < -5 then "Miss"
  else "Meet"

/-- The fields of `class Group`: a name, the member stocks, and the
stored `aar`/`caar` result vectors (mutable state in the C++ class,
explicit record fields here). -/
structure Group where
  name : String
  stocks : List Stock
  aar : List ℚ
  caar : List ℚ
deriving DecidableEq, Repr

/-- `std::vector<double>::resize(n, 0.0)`: keeps the first `n` existing
elements and appends `0.0` up to length `n`.  It does NOT overwrite
surviving elements. -/
def vecResize (xs : List ℚ) (n : ℕ) : List ℚ :=
  xs.take n ++ List.replicate (n - xs.length) 0

/-- The inner summing loop of `Group::calculateAAR` (and of the averaging
loop of `performBootstrapping`): add `xs[day]` into `acc[day]` for every
`day < acc.length && day < xs.length`, leaving the rest of `acc` alone. -/
def addTrunc : List ℚ → List ℚ → List ℚ
  | [], _ => []
  | a :: as, [] => a :: as
  | a :: as, x :: xs => (a + x) :: addTrunc as xs

/-- `Group::calculateAAR`: early return on an empty group; otherwise
resize `aar` to the first member's `abnormalReturns` length (padding new
slots with `0.0`), add every member's abnormal returns truncated at that
length, and divide each slot by the total member count. -/
def calculateAAR (g : Group) : Group :=
  match g.stocks with
  | [] => g
  | s0 :: _ =>
    let daysCount := s0.abnormalReturns.length
    let resized := vecResize g.aar daysCount
    let summed := g.stocks.foldl (fun acc s => addTrunc acc s.abnormalReturns) resized
    { g with aar := summed.map (fun x => x / (g.stocks.length : ℚ)) }

/-- Running-sum helper for `Group::calculateCAAR`: the `cumulative`
accumulator threaded through the loop. -/
def prefixSumsAux (c : ℚ) : List ℚ → List ℚ
  | [] => []
  | x :: xs => (c + x) :: prefixSumsAux (c + x) xs

/-- `Group::calculateCAAR`: clear `caar`, then push the running sum of
`aar`. -/
def calculateCAAR (g : Group) : Group :=
  { g with caar := prefixSumsAux 0 g.aar }

/-- `Group::sampleStocks(int sampleSize)`: returns all stocks when
`stocks.size() <= sampleSize` (the `int` argument converted to `size_t`
for the comparison); otherwise shuffles a copy with a fresh
`std::mt19937` and keeps the first `sampleSize` elements.  The shuffled
copy is passed in as the `shuffled` parameter, abstracting the
randomness source. -/
def sampleStocks (stocks : List Stock) (sampleSize : ℤ) (shuffled : List Stock) :
    List Stock :=
  if stocks.length ≤ size_t_of_int sampleSize then stocks
  else shuffled.take (size_t_of_int sampleSize)

/-- The per-group averaging tail of `StockAnalyzer::performBootstrapping`:
given the stored per-iteration CAAR vectors, take the minimum size
(running `min` started at `SIZE_T_MAX`), sum each day below that size
across iterations into a zero-initialised vector, and divide by the
iteration count (which equals the number of stored vectors). -/
def bootstrapAvgCAAR (caars : List (List ℚ)) : List ℚ :=
  let minSize := caars.foldl (fun m c => min m c.length) SIZE_T_MAX
  let summed := caars.foldl (fun acc c => addTrunc acc c) (List.replicate minSize 0)
  summed.map (fun x => x / (caars.length : ℚ))

/-! ## Helper lemmas -/

lemma getD_zipWith_sub : ∀ (r m : List ℚ) (i : ℕ), i < min r.length m.length →
    (List.zipWith (fun a b => a - b) r m).getD i 0 = r.getD i 0 - m.getD i 0
  | [], _, i, h => by simp at h
  | _ :: _, [], i, h => by simp at h
  | _ :: _, _ :: _, 0, _ => by simp
  | _ :: as, _ :: bs, i + 1, h => by
    simp only [List.zipWith_cons_cons, List.getD_cons_succ]
    refine getD_zipWith_sub as bs i ?_
    simp only [List.length_cons, Nat.lt_min] at h ⊢
    omega

lemma getGroup_cases (e a : ℚ) :
    (5 < getSurprisePercentage e a ∧ getGroup e a = "Beat") ∨
    (getSurprisePercentage e a < -5 ∧ getGroup e a = "Miss") ∨
    (-5 ≤ getSurprisePercentage e a ∧ getSurprisePercentage e a ≤ 5 ∧
      getGroup e a = "Meet") := by
  simp only [getGroup]
  split_ifs with h1 h2
  · exact Or.inl ⟨h1, rfl⟩
  · exact Or.inr (Or.inl ⟨h2, rfl⟩)
  · exact Or.inr (Or.inr ⟨not_lt.mp h2, not_lt.mp h1, rfl⟩)

lemma getSurprisePercentage_scale (e a c : ℚ) (hc : 0 < c) :
    getSurprisePercentage (c * e) (c * a) = getSurprisePercentage e a := by
  unfold getSurprisePercentage
  by_cases he : e = 0
  · simp [he]
  · have hce : c * e ≠ 0 := mul_ne_zero (ne_of_gt hc) he
    rw [if_pos hce, if_pos he]
    have harg : c * a - c * e = c * (a - e) := by ring
    rw [harg, abs_mul, abs_of_pos hc, mul_div_mul_left _ _ (ne_of_gt hc)]

lemma size_t_of_int_nonneg (n : ℤ) (h0 : 0 ≤ n) (h1 : n < 2 ^ 31) :
    size_t_of_int n = n.toNat := by
  unfold size_t_of_int SIZE_T_WIDTH
  rw [Int.emod_eq_of_lt h0 (by norm_num; omega)]

lemma size_t_of_int_neg (n : ℤ) (hneg : n < 0) (hint : -2 ^ 31 ≤ n) :
    2 ^ 64 - 2 ^ 31 ≤ size_t_of_int n := by
  simp only [size_t_of_int, SIZE_T_WIDTH]
  norm_num at hint ⊢
  omega

lemma sampleStocks_neg_eq_all (stocks shuffled : List Stock) (n : ℤ)
    (hneg : n < 0) (hint : -2 ^ 31 ≤ n) (hlen : stocks.length < 2 ^ 63) :
    sampleStocks stocks n shuffled = stocks := by
  have h := size_t_of_int_neg n hneg hint
  unfold sampleStocks
  rw [if_pos (by norm_num at h hlen ⊢; omega)]

lemma sampleStocks_zero_eq_empty (stocks shuffled : List Stock) :
    sampleStocks stocks 0 shuffled = [] := by
  unfold sampleStocks
  have h : size_t_of_int 0 = 0 := rfl
  rw [h]
  by_cases hs : stocks.length ≤ 0
  · rw [if_pos hs]
    exact List.length_eq_zero.mp (Nat.le_zero.mp hs)
  · rw [if_neg hs]
    exact List.take_zero shuffled

lemma length_addTrunc : ∀ (a x : List ℚ), (addTrunc a x).length = a.length
  | [], _ => rfl
  | _ :: _, [] => rfl
  | a :: as, x :: xs => by simp [addTrunc, length_addTrunc as xs]

lemma getD_addTrunc : ∀ (a x : List ℚ) (d : ℕ), d < a.length →
    (addTrunc a x).getD d 0 = a.getD d 0 + x.getD d 0
  | [], _, d, h => by simp at h
  | _ :: _, [], d, _ => by simp [addTrunc]
  | a :: as, x :: xs, 0, _ => by simp [addTrunc]
  | a :: as, x :: xs, d + 1, h => by
    simp only [addTrunc, List.getD_cons_succ]
    exact getD_addTrunc as xs d (by simpa using h)

lemma addTrunc_replicate : ∀ (x : List ℚ),
    addTrunc (List.replicate x.length 0) x = x
  | [] => rfl
  | x :: xs => by
    simp [List.replicate_succ, addTrunc, addTrunc_replicate xs]

lemma getD_replicate_zero : ∀ (n d : ℕ),
    (List.replicate n (0 : ℚ)).getD d 0 = 0
  | 0, _ => by simp
  | _ + 1, 0 => by simp
  | n + 1, d + 1 => by
    simp [List.replicate_succ, getD_replicate_zero n d]

lemma getD_map_div : ∀ (xs : List ℚ) (q : ℚ) (d : ℕ), d < xs.length →
    (xs.map (fun x => x / q)).getD d 0 = xs.getD d 0 / q
  | [], _, d, h => by simp at h
  | _ :: _, _, 0, _ => by simp
  | _ :: xs, q, d + 1, h => by
    simp only [List.map_cons, List.getD_cons_succ]
    exact getD_map_div xs q d (by simpa using h)

lemma foldl_addTrunc_length : ∀ (ss : List Stock) (acc : List ℚ),
    (ss.foldl (fun acc s => addTrunc acc s.abnormalReturns) acc).length
      = acc.length
  | [], _ => rfl
  | s :: ss, acc => by
    simp only [List.foldl_cons]
    rw [foldl_addTrunc_length ss _, length_addTrunc]

lemma foldl_addTrunc_getD : ∀ (ss : List Stock) (acc : List ℚ) (d : ℕ),
    d < acc.length →
    (ss.foldl (fun acc s => addTrunc acc s.abnormalReturns) acc).getD d 0
      = acc.getD d 0 + (ss.map (fun s => s.abnormalReturns.getD d 0)).sum
  | [], _, _, _ => by simp
  | s :: ss, acc, d, h => by
    simp only [List.foldl_cons, List.map_cons, List.sum_cons]
    rw [foldl_addTrunc_getD ss _ d (by rw [length_addTrunc]; exact h),
        getD_addTrunc acc _ d h]
    ring

lemma calculateAAR_fresh_aar (nm : String) (s0 : Stock) (rest : List Stock)
    (cr : List ℚ) :
    (calculateAAR ⟨nm, s0 :: rest, [], cr⟩).aar
      = ((s0 :: rest).foldl (fun acc s => addTrunc acc s.abnormalReturns)
          (List.replicate s0.abnormalReturns.length 0)).map
          (fun x => x / ((s0 :: rest).length : ℚ)) := by
  simp [calculateAAR, vecResize]

lemma length_prefixSumsAux : ∀ (c : ℚ) (xs : List ℚ),
    (prefixSumsAux c xs).length = xs.length
  | _, [] => rfl
  | c, x :: xs => by simp [prefixSumsAux, length_prefixSumsAux (c + x) xs]

lemma getD_prefixSumsAux : ∀ (xs : List ℚ) (c : ℚ) (d : ℕ), d < xs.length →
    (prefixSumsAux c xs).getD d 0 = c + (xs.take (d + 1)).sum
  | [], _, d, h => by simp at h
  | x :: xs, c, 0, _ => by simp [prefixSumsAux]
  | x :: xs, c, d + 1, h => by
    simp only [prefixSumsAux, List.getD_cons_succ, List.take_succ_cons,
      List.sum_cons]
    rw [getD_prefixSumsAux xs (c + x) d (by simpa using h)]
    ring

/-! ## Claim theorems -/

/-- C1: the claim that `calculateAAR` is idempotent on an unchanged group
fails on the code: `aar.resize(daysCount, 0.0)` does not reset the entries
surviving from the previous call (despite the comment "Initialize AAR
vector with zeros"), so a second call adds the member sums on top of the
first result.  On a one-member group with abnormal returns `[1]`, a first
call stores `aar = [1]` and a second call stores `aar = [2]`. -/
theorem calculateAAR_not_idempotent :
    (calculateAAR ⟨"Beat", [⟨"A", 0, 0, [1]⟩], [], []⟩).aar = [1] ∧
    (calculateAAR (calculateAAR ⟨"Beat", [⟨"A", 0, 0, [1]⟩], [], []⟩)).aar
      = [2] := by
  constructor <;> norm_num [calculateAAR, vecResize, addTrunc, List.foldl]

/-- C5: `calculateAbnormalReturns` produces a sequence of length exactly
`min (len companyReturns) (len marketReturns)` whose element `i` is
`companyReturns[i] - marketReturns[i]`; a length mismatch is never an
error — the shorter length wins. -/
theorem calculateAbnormalReturns_truncation (returns marketReturns : List ℚ) :
    (calculateAbnormalReturns returns marketReturns).length
      = min returns.length marketReturns.length ∧
    ∀ i, i < min returns.length marketReturns.length →
      (calculateAbnormalReturns returns marketReturns).getD i 0
        = returns.getD i 0 - marketReturns.getD i 0 := by
  refine ⟨?_, fun i h => getD_zipWith_sub returns marketReturns i h⟩
  simp [calculateAbnormalReturns]

/-- C5 witness: at `returns = [1/50, 0]` and `marketReturns = [1/100]` the
output has length `min 2 1 = 1` and element `0` equals `1/50 - 1/100`. -/
theorem calculateAbnormalReturns_truncation_witness :
    ((0 : ℕ) < min [(1 : ℚ)/50, 0].length [(1 : ℚ)/100].length) ∧
    (calculateAbnormalReturns [(1 : ℚ)/50, 0] [(1 : ℚ)/100]).getD 0 0
      = [(1 : ℚ)/50, 0].getD 0 0 - [(1 : ℚ)/100].getD 0 0 :=
  ⟨by decide,
   (calculateAbnormalReturns_truncation [(1 : ℚ)/50, 0] [(1 : ℚ)/100]).2 0
     (by decide)⟩

/-- C9: `getGroup` returns `"Beat"` iff the surprise percentage exceeds
`5`, `"Miss"` iff it is below `-5`, and `"Meet"` otherwise; with
`epsEstimate = 0` the surprise is `0` and the result is `"Meet"`. -/
theorem classifier_correct (e a : ℚ) :
    (getGroup e a = "Beat" ↔ 5 < getSurprisePercentage e a) ∧
    (getGroup e a = "Miss" ↔ getSurprisePercentage e a < -5) ∧
    (getGroup e a = "Meet" ↔
      -5 ≤ getSurprisePercentage e a ∧ getSurprisePercentage e a ≤ 5) ∧
    getSurprisePercentage 0 a = 0 ∧ getGroup 0 a = "Meet" := by
  have h0 : getSurprisePercentage 0 a = 0 := by simp [getSurprisePercentage]
  have hM0 : getGroup 0 a = "Meet" := by
    rcases getGroup_cases 0 a with ⟨h, _⟩ | ⟨h, _⟩ | ⟨_, _, h⟩
    · rw [h0] at h; norm_num at h
    · rw [h0] at h; norm_num at h
    · exact h
  refine ⟨?_, ?_, ?_, h0, hM0⟩
  · constructor
    · intro hEq
      rcases getGroup_cases e a with ⟨h, _⟩ | ⟨_, hg⟩ | ⟨_, _, hg⟩
      · exact h
      · rw [hg] at hEq; exact absurd hEq (by decide)
      · rw [hg] at hEq; exact absurd hEq (by decide)
    · intro h5
      rcases getGroup_cases e a with ⟨_, hg⟩ | ⟨h, _⟩ | ⟨_, hle, _⟩
      · exact hg
      · linarith
      · linarith
  · constructor
    · intro hEq
      rcases getGroup_cases e a with ⟨_, hg⟩ | ⟨h, _⟩ | ⟨_, _, hg⟩
      · rw [hg] at hEq; exact absurd hEq (by decide)
      · exact h
      · rw [hg] at hEq; exact absurd hEq (by decide)
    · intro h5
      rcases getGroup_cases e a with ⟨h, _⟩ | ⟨_, hg⟩ | ⟨hge, _, _⟩
      · linarith
      · exact hg
      · linarith
  · constructor
    · intro hEq
      rcases getGroup_cases e a with ⟨_, hg⟩ | ⟨_, hg⟩ | ⟨hge, hle, _⟩
      · rw [hg] at hEq; exact absurd hEq (by decide)
      · rw [hg] at hEq; exact absurd hEq (by decide)
      · exact ⟨hge, hle⟩
    · intro h5
      rcases getGroup_cases e a with ⟨h, _⟩ | ⟨h, _⟩ | ⟨_, _, hg⟩
      · linarith [h5.2]
      · linarith [h5.1]
      · exact hg

/-- C2: on a non-empty group with freshly initialised (empty) `aar`,
`calculateAAR` produces a sequence whose length is the first member's
`abnormalReturns` length `N`, with `aar[d]` the sum over all members of
`abnormalReturns[m][d]` (`0` past a member's own length) divided by the
total member count; in particular the two-member group with abnormal
returns `[1/100, 2/100]` and `[3/100, 2/100]` gets `aar = [1/50, 1/50]`
(i.e. `[0.02, 0.02]`). -/
theorem calculateAAR_formula (nm : String) (s0 : Stock) (rest : List Stock)
    (cr : List ℚ) :
    (calculateAAR ⟨nm, s0 :: rest, [], cr⟩).aar.length
      = s0.abnormalReturns.length ∧
    (∀ d, d < s0.abnormalReturns.length →
      (calculateAAR ⟨nm, s0 :: rest, [], cr⟩).aar.getD d 0
        = ((s0 :: rest).map (fun s => s.abnormalReturns.getD d 0)).sum
            / ((s0 :: rest).length : ℚ)) ∧
    (calculateAAR ⟨"G", [⟨"A", 0, 0, [(1 : ℚ)/100, 2/100]⟩,
        ⟨"B", 0, 0, [(3 : ℚ)/100, 2/100]⟩], [], []⟩).aar
      = [(1 : ℚ)/50, 1/50] := by
  refine ⟨?_, ?_, ?_⟩
  · rw [calculateAAR_fresh_aar, List.length_map, foldl_addTrunc_length,
      List.length_replicate]
  · intro d hd
    rw [calculateAAR_fresh_aar,
      getD_map_div _ _ d (by rw [foldl_addTrunc_length, List.length_replicate]; exact hd),
      foldl_addTrunc_getD _ _ d (by rw [List.length_replicate]; exact hd),
      getD_replicate_zero, zero_add]
  · norm_num [calculateAAR, vecResize, addTrunc, List.foldl]

/-- C2 witness: instantiated at the two-member group of the end-to-end
scenario, day `0`. -/
theorem calculateAAR_formula_witness :
    ((0 : ℕ) < (⟨"A", 0, 0, [(1 : ℚ)/100, 2/100]⟩ : Stock).abnormalReturns.length) ∧
    (calculateAAR ⟨"G", [⟨"A", 0, 0, [(1 : ℚ)/100, 2/100]⟩,
        ⟨"B", 0, 0, [(3 : ℚ)/100, 2/100]⟩], [], []⟩).aar.getD 0 0
      = (([⟨"A", 0, 0, [(1 : ℚ)/100, 2/100]⟩,
          ⟨"B", 0, 0, [(3 : ℚ)/100, 2/100]⟩] : List Stock).map
          (fun s => s.abnormalReturns.getD 0 0)).sum
          / (([⟨"A", 0, 0, [(1 : ℚ)/100, 2/100]⟩,
              ⟨"B", 0, 0, [(3 : ℚ)/100, 2/100]⟩] : List Stock).length : ℚ) :=
  ⟨by norm_num,
   (calculateAAR_formula "G" ⟨"A", 0, 0, [(1 : ℚ)/100, 2/100]⟩
     [⟨"B", 0, 0, [(3 : ℚ)/100, 2/100]⟩] []).2.1 0 (by norm_num)⟩

/-- C6: `calculateCAAR` stores in `caar` the running prefix sum of `aar`:
same length, `caar[d] = Σ_{k ≤ d} aar[k]`, and an empty `aar` yields an
empty `caar`. -/
theorem calculateCAAR_prefix_sum (g : Group) :
    (calculateCAAR g).caar.length = g.aar.length ∧
    (∀ d, d < g.aar.length →
      (calculateCAAR g).caar.getD d 0 = (g.aar.take (d + 1)).sum) ∧
    (g.aar = [] → (calculateCAAR g).caar = []) := by
  refine ⟨?_, ?_, ?_⟩
  · simp [calculateCAAR, length_prefixSumsAux]
  · intro d hd
    simp only [calculateCAAR]
    rw [getD_prefixSumsAux g.aar 0 d hd, zero_add]
  · intro h
    simp [calculateCAAR, h, prefixSumsAux]

/-- C6 witness: at `aar = [1/50, 1/50]` the stored `caar` at day `1` is
the sum of the first two entries, and an empty `aar` yields `caar = []`. -/
theorem calculateCAAR_prefix_sum_witness :
    ((1 : ℕ) < ([(1 : ℚ)/50, 1/50] : List ℚ).length ∧ ([] : List ℚ) = []) ∧
    (calculateCAAR ⟨"Beat", [], [(1 : ℚ)/50, 1/50], []⟩).caar.getD 1 0
      = (([(1 : ℚ)/50, 1/50] : List ℚ).take 2).sum ∧
    (calculateCAAR ⟨"Beat", [], [], []⟩).caar = [] :=
  ⟨⟨by norm_num, rfl⟩,
   (calculateCAAR_prefix_sum ⟨"Beat", [], [(1 : ℚ)/50, 1/50], []⟩).2.1 1
     (by norm_num),
   (calculateCAAR_prefix_sum ⟨"Beat", [], [], []⟩).2.2 rfl⟩

/-- C8: a bootstrap run of a single iteration is the identity on that
iteration's CAAR: for every group, positive `sampleSize` and shuffle
outcome, averaging the one stored CAAR vector (truncation to the minimum
length over one iteration and division by `1`) returns exactly the CAAR
of the iteration's ephemeral sample group. -/
theorem bootstrap_single_iteration (g : Group) (n : ℤ) (shuffled : List Stock)
    (hn : 0 < n)
    (hfit : (calculateCAAR (calculateAAR
      ⟨"TempBeat", sampleStocks g.stocks n shuffled, [], []⟩)).caar.length
      ≤ SIZE_T_MAX) :
    bootstrapAvgCAAR [(calculateCAAR (calculateAAR
      ⟨"TempBeat", sampleStocks g.stocks n shuffled, [], []⟩)).caar]
      = (calculateCAAR (calculateAAR
      ⟨"TempBeat", sampleStocks g.stocks n shuffled, [], []⟩)).caar := by
  generalize (calculateCAAR (calculateAAR
      ⟨"TempBeat", sampleStocks g.stocks n shuffled, [], []⟩)).caar = c at hfit ⊢
  simp only [bootstrapAvgCAAR, List.foldl_cons, List.foldl_nil,
    List.length_cons, List.length_nil]
  rw [min_eq_right hfit, addTrunc_replicate]
  simp

/-- C8 witness: a one-member group with abnormal returns `[1]`, sampled
with `sampleSize = 1`. -/
theorem bootstrap_single_iteration_witness :
    ((0 : ℤ) < 1 ∧
      (calculateCAAR (calculateAAR ⟨"TempBeat",
        sampleStocks (Group.stocks ⟨"Beat", [⟨"A", 0, 0, [1]⟩], [], []⟩) 1 [],
        [], []⟩)).caar.length ≤ SIZE_T_MAX) ∧
    bootstrapAvgCAAR [(calculateCAAR (calculateAAR ⟨"TempBeat",
        sampleStocks (Group.stocks ⟨"Beat", [⟨"A", 0, 0, [1]⟩], [], []⟩) 1 [],
        [], []⟩)).caar]
      = (calculateCAAR (calculateAAR ⟨"TempBeat",
        sampleStocks (Group.stocks ⟨"Beat", [⟨"A", 0, 0, [1]⟩], [], []⟩) 1 [],
        [], []⟩)).caar :=
  ⟨⟨by norm_num,
    by norm_num [calculateCAAR, calculateAAR, sampleStocks, size_t_of_int,
      SIZE_T_WIDTH, SIZE_T_MAX, vecResize, addTrunc, prefixSumsAux,
      length_prefixSumsAux, List.foldl]⟩,
   bootstrap_single_iteration ⟨"Beat", [⟨"A", 0, 0, [1]⟩], [], []⟩ 1 []
     (by norm_num)
     (by norm_num [calculateCAAR, calculateAAR, sampleStocks, size_t_of_int,
       SIZE_T_WIDTH, SIZE_T_MAX, vecResize, addTrunc, prefixSumsAux,
       length_prefixSumsAux, List.foldl])⟩

/-- C3 counterexample: `sampleStocks` with `sampleSize = 0` on a
one-member group returns the empty list — it produces a result instead of
signalling an `InvalidArgumentError`; no argument validation exists in the
code. -/
theorem sampleStocks_zero_counterexample :
    sampleStocks [⟨"A", 0, 0, []⟩] 0 [] = [] := rfl

/-- C3 amended: no validation of non-positive bootstrap arguments occurs;
`sampleStocks` with a negative `sampleSize` (in `int` range, group size in
`size_t` range) returns the full member list, and with `sampleSize = 0`
returns the empty list — never an error. -/
theorem sampleStocks_nonpositive_no_error (stocks shuffled : List Stock)
    (n : ℤ) (hneg : n < 0) (hint : -2 ^ 31 ≤ n)
    (hlen : stocks.length < 2 ^ 63) :
    sampleStocks stocks n shuffled = stocks ∧
    sampleStocks stocks 0 shuffled = [] :=
  ⟨sampleStocks_neg_eq_all stocks shuffled n hneg hint hlen,
   sampleStocks_zero_eq_empty stocks shuffled⟩

/-- C3 witness: at a one-member group with `sampleSize = -1`. -/
theorem sampleStocks_nonpositive_no_error_witness :
    ((-1 : ℤ) < 0 ∧ -2 ^ 31 ≤ (-1 : ℤ) ∧
      ([⟨"A", 0, 0, []⟩] : List Stock).length < 2 ^ 63) ∧
    sampleStocks [(⟨"A", 0, 0, []⟩ : Stock)] (-1) [] = [⟨"A", 0, 0, []⟩] ∧
    sampleStocks [(⟨"A", 0, 0, []⟩ : Stock)] 0 [] = [] :=
  ⟨⟨by norm_num, by norm_num, by norm_num⟩,
   sampleStocks_nonpositive_no_error [⟨"A", 0, 0, []⟩] [] (-1) (by norm_num)
     (by norm_num) (by norm_num)⟩

/-- C4: on a non-empty group, `sampleStocks` with a negative `sampleSize`
returns the full member list (the signed argument converts to a huge
`size_t` for the comparison), while `sampleSize = 0` returns an empty
sample. -/
theorem sampleStocks_negative_full_zero_empty (stocks shuffled : List Stock)
    (n : ℤ) (hne : stocks ≠ []) (hneg : n < 0) (hint : -2 ^ 31 ≤ n)
    (hlen : stocks.length < 2 ^ 63) :
    sampleStocks stocks n shuffled = stocks ∧
    sampleStocks stocks 0 shuffled = [] :=
  ⟨sampleStocks_neg_eq_all stocks shuffled n hneg hint hlen,
   sampleStocks_zero_eq_empty stocks shuffled⟩

/-- C4 witness: at a two-member group with `sampleSize = -7`. -/
theorem sampleStocks_negative_full_zero_empty_witness :
    (([⟨"A", 0, 0, []⟩, ⟨"B", 0, 0, []⟩] : List Stock) ≠ [] ∧
      (-7 : ℤ) < 0 ∧ -2 ^ 31 ≤ (-7 : ℤ) ∧
      ([⟨"A", 0, 0, []⟩, ⟨"B", 0, 0, []⟩] : List Stock).length < 2 ^ 63) ∧
    sampleStocks [(⟨"A", 0, 0, []⟩ : Stock), ⟨"B", 0, 0, []⟩] (-7) []
      = [⟨"A", 0, 0, []⟩, ⟨"B", 0, 0, []⟩] ∧
    sampleStocks [(⟨"A", 0, 0, []⟩ : Stock), ⟨"B", 0, 0, []⟩] 0 [] = [] :=
  ⟨⟨by simp, by norm_num, by norm_num, by norm_num⟩,
   sampleStocks_negative_full_zero_empty [⟨"A", 0, 0, []⟩, ⟨"B", 0, 0, []⟩]
     [] (-7) (by simp) (by norm_num) (by norm_num) (by norm_num)⟩

/-- C7: whenever `sampleSize` is at least the member count (and within
`int` range), `sampleStocks` returns exactly the full member list, for
every possible shuffle outcome — so the randomness source is never
consulted. -/
theorem sampleStocks_all_members (stocks shuffled : List Stock) (n : ℤ)
    (hle : (stocks.length : ℤ) ≤ n) (hint : n < 2 ^ 31) :
    sampleStocks stocks n shuffled = stocks := by
  have h0 : 0 ≤ n := le_trans (Int.natCast_nonneg _) hle
  have hmod : size_t_of_int n = n.toNat := size_t_of_int_nonneg n h0 hint
  unfold sampleStocks
  rw [hmod, if_pos (by omega)]

/-- C7 witness: a one-member group sampled with `sampleSize = 1`. -/
theorem sampleStocks_all_members_witness :
    ((([⟨"A", 0, 0, []⟩] : List Stock).length : ℤ) ≤ 1 ∧
      (1 : ℤ) < 2 ^ 31) ∧
    sampleStocks [(⟨"A", 0, 0, []⟩ : Stock)] 1 [] = [⟨"A", 0, 0, []⟩] :=
  ⟨⟨by norm_num, by norm_num⟩,
   sampleStocks_all_members [⟨"A", 0, 0, []⟩] [] 1 (by norm_num)
     (by norm_num)⟩

/-- C10: classification is invariant under scaling both the EPS estimate
and the actual EPS by the same positive constant. -/
theorem classification_scale_invariant (e a c : ℚ) (hc : 0 < c) :
    getGroup (c * e) (c * a) = getGroup e a := by
  simp only [getGroup]
  rw [getSurprisePercentage_scale e a c hc]

/-- C10 witness: at `e = 2`, `a = 11/5`, `c = 2` the scaled pair
classifies the same as the original. -/
theorem classification_scale_invariant_witness :
    (0 : ℚ) < 2 ∧ getGroup (2 * 2) (2 * (11 / 5)) = getGroup 2 (11 / 5) :=
  ⟨by norm_num, classification_scale_invariant 2 (11 / 5) 2 (by norm_num)⟩

end EventStudy
